import Mathlib

/-!
Verification of the quintans/eventstore repository.

This file gives a shallow embedding of the parts of the code that the
claims touch:

* the PostgreSQL event repository (`store/postgresql`): `SaveEvent` with
  its transactional insert loop, `GetEvents` together with the SQL filter
  built by `buildFilter` (modelled as a small condition AST evaluated
  against bound parameters, so that out-of-range placeholders surface as
  query failures, exactly as they would in the database);
* the MongoDB change-stream partition match (`store/mongodb/listener.go`);
* `EventStore.Save` (`eventstore.go`) with its timestamp computation,
  snapshot threshold and the sequence of calls issued to the repository;
* the worker balancing target computation (`worker/balance_workers.go`);
* the projection `BootableManager`: the `boot` sequence as an operation
  trace and the `Freeze`/`Unfreeze`/`Wait` state machine
  (`projection`, `src/unnamed/part_001`).

Machine integers are modelled as `Nat`, times as integers (nanoseconds),
event identifiers as strings ordered lexicographically (the encoded IDs
are fixed-width and order-preserving).  Fallible operations return
`Except`.  Collaborators that live outside the repository (the ID
generator `common.NewEventID`, the hash `common.Hash`, the bus, the
projection handler) are parameters of the corresponding definitions.
-/

namespace PgStore

/-- A row of the `events` table, as inserted by `EsRepository.SaveEvent`
(`store/postgresql`, fields of the `Event` struct plus
`aggregate_id_hash`).  The JSON-marshalled labels are carried as an
opaque string. -/
structure DbEvent where
  id : String
  aggregateID : String
  aggregateVersion : Nat
  aggregateType : String
  kind : String
  body : String
  idempotencyKey : String
  labels : String
  createdAt : Int
  aggregateIDHash : Nat
deriving DecidableEq

/-- One element of `EventRecord.Details`. -/
structure EventRecordDetail where
  kind : String
  body : String
deriving DecidableEq

/-- The write-side request handed to `SaveEvent` (`eventstore.EventRecord`).
Labels are carried already marshalled. -/
structure EventRecord where
  aggregateID : String
  version : Nat
  aggregateType : String
  idempotencyKey : String
  labels : String
  createdAt : Int
  details : List EventRecordDetail
deriving DecidableEq

/-- The two unique constraints of the `events` table
(`test/pg/shared_test.go`, `dbSchema`): `evt_agg_id_ver_uk` on
`(aggregate_id, aggregate_version)` and `evt_agg_idempot_uk` on
`(aggregate_type, idempotency_key)`.  An empty idempotency key is stored
as an absent (NULL) value and never collides, matching the store
contract "uniqueness on (aggregateType, idempotencyKey) if key
non-empty". -/
inductive PgConstraint
  | aggIdVersion
  | aggTypeIdemKey
deriving DecidableEq

/-- Errors surfaced by the database driver: a unique violation carries
SQLSTATE 23505 (`pgUniqueViolation`); anything else is some other
execution failure. -/
inductive PgError
  | uniqueViolation (c : PgConstraint)
  | execFailure (msg : String)
deriving DecidableEq

/-- The SQLSTATE code of a driver error. -/
def pgCode : PgError → String
  | .uniqueViolation _ => "23505"
  | .execFailure _ => ""

/-- Translation of `isPgDup`: the error is a duplicate exactly when its
code is the unique-violation SQLSTATE, regardless of which constraint
was violated. -/
def isPgDup (e : PgError) : Bool := pgCode e == "23505"

/-- Which unique constraint (if any) the insertion of `e` into table
`tbl` violates; the database reports the first one found. -/
def whichViolation (tbl : List DbEvent) (e : DbEvent) : Option PgConstraint :=
  if tbl.any fun r =>
      r.aggregateID == e.aggregateID && r.aggregateVersion == e.aggregateVersion then
    some .aggIdVersion
  else if tbl.any fun r =>
      e.idempotencyKey != "" && r.aggregateType == e.aggregateType &&
        r.idempotencyKey == e.idempotencyKey then
    some .aggTypeIdemKey
  else
    none

/-- Execution of the `INSERT INTO events ...` statement: rejected with a
unique violation when a constraint fires, otherwise the row is appended. -/
def execInsert (tbl : List DbEvent) (e : DbEvent) : Except PgError (List DbEvent) :=
  match whichViolation tbl e with
  | some c => .error (.uniqueViolation c)
  | none => .ok (tbl ++ [e])

/-- The error returned by `SaveEvent`: either
`eventstore.ErrConcurrentModification` or the wrapped driver error
("Unable to insert event: ..."). -/
inductive SaveError
  | concurrentModification
  | wrapped (e : PgError)
deriving DecidableEq

/-- The row built for one detail in the `SaveEvent` loop, with the
version already incremented and the ID produced by
`common.NewEventID(createdAt, aggregateID, version)` (`idGen`) and the
hash by `common.Hash` (`hash`). -/
def mkRow (idGen : Int → String → Nat → String) (hash : String → Nat)
    (record : EventRecord) (version : Nat) (d : EventRecordDetail) : DbEvent :=
  { id := idGen record.createdAt record.aggregateID version
    aggregateID := record.aggregateID
    aggregateVersion := version
    aggregateType := record.aggregateType
    kind := d.kind
    body := d.body
    idempotencyKey := record.idempotencyKey
    labels := record.labels
    createdAt := record.createdAt
    aggregateIDHash := hash record.aggregateID }

/-- The body of the transaction in `SaveEvent`: for each detail the
version is incremented, an ID generated, and the row inserted; a
duplicate aborts with `ErrConcurrentModification`, any other insert
failure aborts with the wrapped error.  Returns the table as seen inside
the transaction together with the last assigned ID and version. -/
def insertLoop (idGen : Int → String → Nat → String) (hash : String → Nat)
    (record : EventRecord) :
    List DbEvent → String → Nat → List EventRecordDetail →
    Except SaveError (List DbEvent × String × Nat)
  | tbl, id, version, [] => .ok (tbl, id, version)
  | tbl, _, version, d :: ds =>
    let version' := version + 1
    let row := mkRow idGen hash record version' d
    match execInsert tbl row with
    | .error e =>
      if isPgDup e then .error .concurrentModification else .error (.wrapped e)
    | .ok tbl' => insertLoop idGen hash record tbl' row.id version' ds

/-- Translation of `EsRepository.SaveEvent` composed with `withTx`: the
insert loop runs inside a transaction; on success the transaction
commits (the new table is kept) and the last ID and version are
returned, on any error the transaction rolls back (the table is
unchanged).  The optional projector factory is taken absent (its nil
default); it writes to read-model tables, not to `events`. -/
def saveEvent (idGen : Int → String → Nat → String) (hash : String → Nat)
    (tbl : List DbEvent) (record : EventRecord) :
    Except SaveError (String × Nat) × List DbEvent :=
  match insertLoop idGen hash record tbl "" record.version record.details with
  | .ok (tbl', id, version) => (.ok (id, version), tbl')
  | .error e => (.error e, tbl)

/-- The rows that a successful `SaveEvent` appends for the given record,
starting after base version `version`. -/
def recRowsFrom (idGen : Int → String → Nat → String) (hash : String → Nat)
    (record : EventRecord) : Nat → List EventRecordDetail → List DbEvent
  | _, [] => []
  | version, d :: ds =>
    mkRow idGen hash record (version + 1) d ::
      recRowsFrom idGen hash record (version + 1) ds

/-- Lexicographic comparison of character lists by code point, as the
database compares VARCHAR values. -/
def strLtB : List Char → List Char → Bool
  | [], [] => false
  | [], _ :: _ => true
  | _ :: _, [] => false
  | a :: as, b :: bs =>
    if a.toNat < b.toNat then true
    else if b.toNat < a.toNat then false
    else strLtB as bs

/-- Strict string comparison used for `id > $1`. -/
def strLt (a b : String) : Bool := strLtB a.data b.data

/-- Reflexive string comparison used for `ORDER BY id ASC`. -/
def strLe (a b : String) : Bool := !(strLt b a)

/-- A value bound to a SQL placeholder. -/
inductive SqlVal
  | s (v : String)
  | i (v : Int)
  | n (v : Nat)
deriving DecidableEq

/-- The WHERE conditions that `GetEvents` and `buildFilter` emit, with
the 1-based placeholder indices they reference.  `aggTypeOr idxs` is the
disjunction `(aggregate_type = $i OR ...)`; `modEq`/`modBetween` are the
partition conditions on `MOD(aggregate_id_hash, $n)`.  The labels clause
is not modelled (no claim depends on it). -/
inductive SqlCond
  | idGt (arg : Nat)
  | createdLe (arg : Nat)
  | aggTypeOr (idxs : List Nat)
  | modEq (nArg offArg : Nat)
  | modBetween (nArg loArg hiArg : Nat)
deriving DecidableEq

/-- The filter handed to `GetEvents` (`store.Filter`, labels omitted). -/
structure Filter where
  aggregateTypes : List String
  partitions : Nat
  partitionsLow : Nat
  partitionsHi : Nat
deriving DecidableEq

/-- Translation of `buildFilter`: appends the aggregate-type disjunction
(one placeholder per type) and then the partition condition.  The
placeholder indices are the ones the Go code writes into the query text:
in the `BETWEEN` branch the code appends the three arguments
`Partitions`, `PartitionsLow-1`, `PartitionsHi-1` (indices `size+1`,
`size+2`, `size+3`) but the query text references `$size+1`, `$size+2`
and `$size+4`. -/
def buildFilter (f : Filter) (args : List SqlVal) : List SqlCond × List SqlVal :=
  let (cs1, args1) :=
    if f.aggregateTypes.length > 0 then
      ([SqlCond.aggTypeOr
          ((List.range f.aggregateTypes.length).map fun k => args.length + k + 1)],
        args ++ f.aggregateTypes.map SqlVal.s)
    else ([], args)
  if f.partitions > 0 then
    let size := args1.length
    if f.partitionsLow == f.partitionsHi then
      (cs1 ++ [SqlCond.modEq (size + 1) (size + 2)],
        args1 ++ [SqlVal.n f.partitions, SqlVal.n (f.partitionsLow - 1)])
    else
      (cs1 ++ [SqlCond.modBetween (size + 1) (size + 2) (size + 4)],
        args1 ++ [SqlVal.n f.partitions, SqlVal.n (f.partitionsLow - 1),
          SqlVal.n (f.partitionsHi - 1)])
  else (cs1, args1)

/-- Look up the value bound to the 1-based placeholder `i`; `none` means
the query references a parameter that was never bound and the database
rejects the whole statement. -/
def getArg (args : List SqlVal) (i : Nat) : Option SqlVal := args.get? (i - 1)

/-- A placeholder read as a string. -/
def argStr (args : List SqlVal) (i : Nat) : Option String :=
  match getArg args i with
  | some (.s v) => some v
  | _ => none

/-- A placeholder read as a time. -/
def argInt (args : List SqlVal) (i : Nat) : Option Int :=
  match getArg args i with
  | some (.i v) => some v
  | _ => none

/-- A placeholder read as a number. -/
def argNat (args : List SqlVal) (i : Nat) : Option Nat :=
  match getArg args i with
  | some (.n v) => some v
  | _ => none

/-- Evaluation of one WHERE condition on a row; `none` when the
condition references an unbound placeholder. -/
def evalCond (args : List SqlVal) (r : DbEvent) : SqlCond → Option Bool
  | .idGt a => (argStr args a).map fun v => strLt v r.id
  | .createdLe a => (argInt args a).map fun v => decide (r.createdAt ≤ v)
  | .aggTypeOr idxs =>
    (idxs.mapM (argStr args)).map fun vs => vs.any fun v => v == r.aggregateType
  | .modEq nA oA => do
    let n ← argNat args nA
    let o ← argNat args oA
    pure (r.aggregateIDHash % n == o)
  | .modBetween nA loA hiA => do
    let n ← argNat args nA
    let lo ← argNat args loA
    let hi ← argNat args hiA
    pure (decide (lo ≤ r.aggregateIDHash % n) && decide (r.aggregateIDHash % n ≤ hi))

/-- Conjunction of all WHERE conditions on a row. -/
def evalConds (args : List SqlVal) (r : DbEvent) : List SqlCond → Option Bool
  | [] => some true
  | c :: cs => do
    let b ← evalCond args r c
    let b2 ← evalConds args r cs
    pure (b && b2)

/-- The rows of the table kept by the WHERE clause, in table order;
`none` when the statement is rejected. -/
def queryRows (args : List SqlVal) (conds : List SqlCond) :
    List DbEvent → Option (List DbEvent)
  | [] => some []
  | r :: rs => do
    let b ← evalConds args r conds
    let rest ← queryRows args conds rs
    pure (if b then r :: rest else rest)

/-- Ordering of rows by event ID, as `ORDER BY id ASC` compares the
VARCHAR ids. -/
def rowLe (a b : DbEvent) : Prop := strLe a.id b.id = true

instance : DecidableRel rowLe :=
  fun a b => inferInstanceAs (Decidable (strLe a.id b.id = true))

/-- Translation of `EsRepository.GetEvents`: the query selects rows with
`id > $1`, adds `created_at <= $2` bound to `now - trailingLag` when the
lag is non-zero, appends the conditions of `buildFilter`, orders by id
ascending and applies `LIMIT batchSize` when `batchSize > 0`.  `none`
models a rejected statement (an error returned to the caller). -/
def getEvents (tbl : List DbEvent) (afterEventID : String) (batchSize : Nat)
    (now lag : Int) (f : Filter) : Option (List DbEvent) :=
  let args0 : List SqlVal :=
    if lag ≠ 0 then [SqlVal.s afterEventID, SqlVal.i (now - lag)]
    else [SqlVal.s afterEventID]
  let conds0 : List SqlCond :=
    if lag ≠ 0 then [.idGt 1, .createdLe 2] else [.idGt 1]
  let bf := buildFilter f args0
  match queryRows bf.2 (conds0 ++ bf.1) tbl with
  | none => none
  | some rows =>
    let sorted := rows.insertionSort rowLe
    some (if batchSize > 0 then sorted.take batchSize else sorted)

end PgStore

namespace MongoFeed

/-- Translation of `partitionMatch` (`store/mongodb/listener.go`) as the
predicate on `aggregate_id_hash` that the generated change-stream match
expresses: no constraint when `partitions = 0`, the single-partition
equality when `lo = hi`, and the two-sided bound otherwise. -/
def partitionMatch (partitions partitionsLow partitionsHi hash : Nat) : Bool :=
  if partitions = 0 then true
  else if partitionsLow == partitionsHi then
    hash % partitions == partitionsLow - 1
  else
    decide (partitionsLow - 1 ≤ hash % partitions) &&
      decide (hash % partitions ≤ partitionsHi - 1)

end MongoFeed

namespace Core

/-- Nanoseconds in one millisecond. -/
def msNs : Nat := 1000000

/-- The `CreatedAt` computed at the top of `EventStore.Save`
(`eventstore.go`): the wall clock is truncated to millisecond precision,
and when the result is not strictly after the aggregate's last update it
is bumped to that update plus one millisecond.  Times are nanoseconds
since the epoch. -/
def saveTimestamp (nowWall updatedAt : Nat) : Nat :=
  let now := nowWall / msNs * msNs
  if now ≤ updatedAt then updatedAt + msNs else now

/-- A pending domain event held by the aggregate (`GetEvents`); the
in-memory value is opaque, `kind` is what `GetType` returns. -/
structure PendingEvent where
  kind : String
  payload : String
deriving DecidableEq

/-- The aggregate state visible to `EventStore.Save` through the
`Aggregater` interface. -/
structure Aggregate where
  id : String
  typ : String
  version : Nat
  updatedAt : Nat
  eventsCounter : Nat
  events : List PendingEvent
deriving DecidableEq

/-- One encoded detail of the record built by `Save`. -/
structure CoreDetail where
  kind : String
  body : String
deriving DecidableEq

/-- The `EventRecord` built by `Save` and passed to
`store.SaveEvent`. -/
structure CoreEventRecord where
  aggregateID : String
  version : Nat
  aggregateType : String
  idempotencyKey : String
  labels : String
  createdAt : Nat
  details : List CoreDetail
deriving DecidableEq

/-- The snapshot built by `Save` and passed to `store.SaveSnapshot`. -/
structure CoreSnapshot where
  id : String
  aggregateID : String
  aggregateVersion : Nat
  aggregateType : String
  body : String
  createdAt : Nat
deriving DecidableEq

/-- The options accumulated from the `SaveOption` functions. -/
structure SaveOpts where
  idempotencyKey : String
  labels : String
deriving DecidableEq

/-- A call issued to the underlying `EsRepository` during `Save`. -/
inductive StoreCall
  | saveEventCall (record : CoreEventRecord)
  | saveSnapshotCall (snap : CoreSnapshot)
deriving DecidableEq

/-- The collaborators of `EventStore.Save`: the two clock reads, the
codec, the repository responses and the snapshot threshold. -/
structure StoreEnv where
  nowWall : Nat
  snapNow : Nat
  encodeEvent : PendingEvent → Except String String
  encodeAggregate : Aggregate → Except String String
  saveEventResp : CoreEventRecord → Except String (String × Nat)
  saveSnapshotResp : CoreSnapshot → Except String Unit
  snapshotThreshold : Nat

/-- The detail-encoding loop of `Save`: each pending event is encoded by
the codec, aborting on the first failure. -/
def encodeDetails (env : StoreEnv) : List PendingEvent → Except String (List CoreDetail)
  | [] => .ok []
  | e :: es => do
    let body ← env.encodeEvent e
    let rest ← encodeDetails env es
    pure (({ kind := e.kind, body := body } : CoreDetail) :: rest)

/-- The record `Save` builds: base version is the aggregate's current
version, `CreatedAt` is the truncated-and-bumped timestamp. -/
def mkRecord (env : StoreEnv) (agg : Aggregate) (opts : SaveOpts)
    (details : List CoreDetail) : CoreEventRecord :=
  { aggregateID := agg.id
    version := agg.version
    aggregateType := agg.typ
    idempotencyKey := opts.idempotencyKey
    labels := opts.labels
    createdAt := saveTimestamp env.nowWall agg.updatedAt
    details := details }

/-- The aggregate after `SetVersion lastVersion`. -/
def setVersion (agg : Aggregate) (v : Nat) : Aggregate := { agg with version := v }

/-- The snapshot `Save` builds after a successful `SaveEvent`. -/
def mkSnap (env : StoreEnv) (agg : Aggregate) (id : String) (body : String) :
    CoreSnapshot :=
  { id := id
    aggregateID := agg.id
    aggregateVersion := agg.version
    aggregateType := agg.typ
    body := body
    createdAt := env.snapNow }

/-- Translation of `EventStore.Save` (`eventstore.go:269-348`): returns
the error result, the aggregate as mutated through the interface, and
the repository calls issued, in order.  An empty pending-event list
returns immediately; otherwise the events are encoded, `SaveEvent` is
called, the version updated, a snapshot written when the events counter
reaches the threshold (its failure returned to the caller), and finally
the pending events are cleared. -/
def save (env : StoreEnv) (agg : Aggregate) (opts : SaveOpts) :
    Except String Unit × Aggregate × List StoreCall :=
  if agg.events.length = 0 then (.ok (), agg, [])
  else
    match encodeDetails env agg.events with
    | .error e => (.error e, agg, [])
    | .ok details =>
      let record := mkRecord env agg opts details
      match env.saveEventResp record with
      | .error e => (.error e, agg, [.saveEventCall record])
      | .ok (id, lastVersion) =>
        let agg1 := setVersion agg lastVersion
        if env.snapshotThreshold ≤ agg1.eventsCounter then
          match env.encodeAggregate agg1 with
          | .error e =>
            (.error ("Failed to create serialize snapshot: " ++ e), agg1,
              [.saveEventCall record])
          | .ok body =>
            let snap := mkSnap env agg1 id body
            match env.saveSnapshotResp snap with
            | .error e =>
              (.error e, agg1, [.saveEventCall record, .saveSnapshotCall snap])
            | .ok _ =>
              (.ok (), { agg1 with events := [] },
                [.saveEventCall record, .saveSnapshotCall snap])
        else
          (.ok (), { agg1 with events := [] }, [.saveEventCall record])

end Core

namespace Balance

/-- One entry of `Memberlister.List`: a peer and the worker names it
currently claims (`worker/balance_workers.go`, `MemberWorkers`). -/
structure MemberWorkers where
  name : String
  workers : List String
deriving DecidableEq

/-- The locally configured workers with their running state. -/
structure WorkerState where
  name : String
  running : Bool
deriving DecidableEq

/-- The names of the locally running workers, deduplicated as the
`myRunningWorkers` map keys are. -/
def runningNames (workers : List WorkerState) : List String :=
  ((workers.filter (·.running)).map (·.name)).dedup

/-- The member count of one balancing iteration: the listed members,
plus this process when it is absent from the list. -/
def memberCount (selfName : String) (members : List MemberWorkers) : Nat :=
  members.length + (if members.any fun m => m.name == selfName then 0 else 1)

/-- The number of workers `run` decides this process should hold
(`worker/balance_workers.go:44-103`): the floor share, plus one when the
worker count does not divide evenly and every listed member (the local
entry included, when present) claims at least the floor share and at
least the floor share of local workers is running. -/
def runTarget (selfName : String) (members : List MemberWorkers)
    (workers : List WorkerState) : Nat :=
  let membersCount := memberCount selfName members
  let monitorsNo := workers.length
  let workersToAcquire := monitorsNo / membersCount
  let allHaveMin :=
    (members.all fun m => workersToAcquire ≤ m.workers.length) &&
      workersToAcquire ≤ (runningNames workers).length
  if allHaveMin && monitorsNo % membersCount != 0 then workersToAcquire + 1
  else workersToAcquire

/-- The target as the claim words it ("every OTHER member claims at
least the floor share"): self's own list entry is excluded from the
all-have-minimum check.  Stated for comparison with `runTarget`. -/
def claimTarget (selfName : String) (members : List MemberWorkers)
    (workers : List WorkerState) : Nat :=
  let membersCount := memberCount selfName members
  let monitorsNo := workers.length
  let workersToAcquire := monitorsNo / membersCount
  let allHaveMin :=
    ((members.filter fun m => m.name != selfName).all
        fun m => workersToAcquire ≤ m.workers.length) &&
      workersToAcquire ≤ (runningNames workers).length
  if allHaveMin && monitorsNo % membersCount != 0 then workersToAcquire + 1
  else workersToAcquire

end Balance

namespace Boot

/-- An event delivered by the tail replay of `boot`, identified by its
store ID (the payload plays no role in the boot protocol). -/
structure BootEvent where
  id : String
deriving DecidableEq

/-- The collaborators of `BootableManager.boot`
(`src/unnamed/part_001:126-194`): the projection's persisted resume ID,
the pure `eventid.DelayEventID` applied with the trailing lag, the
replayer (returning the last replayed ID), the bus resume tokens, the
tail read of the store, the projection handler, and the consumer
start. -/
structure BusOracle where
  resumeEventID : Except String String
  delayed : String → Except String String
  replayAll : String → Except String String
  resumeToken : Nat → Except String String
  tailEvents : String → Except String (List BootEvent)
  handler : BootEvent → Except String Unit
  startConsumer : Nat → String → Except String Unit

/-- One observable operation of the boot sequence, in the order it is
issued. -/
inductive BootOp
  | getResumeEventID
  | replay (afterID : String)
  | getResumeToken (partition : Nat)
  | getEvents (afterID : String) (batchSize : Nat) (trailingLag : Nat)
  | handle (e : BootEvent)
  | startConsumer (partition : Nat) (token : String)
deriving DecidableEq

/-- The token-fetch loop of `boot`: one `GetResumeToken` per partition,
aborting on the first failure. -/
def fetchTokens (O : BusOracle) : List Nat → List BootOp × Except String (List String)
  | [] => ([], .ok [])
  | p :: ps =>
    match O.resumeToken p with
    | .error e => ([.getResumeToken p], .error e)
    | .ok t =>
      let rest := fetchTokens O ps
      (.getResumeToken p :: rest.1,
        match rest.2 with
        | .ok ts => .ok (t :: ts)
        | .error e => .error e)

/-- The tail-replay loop of `boot`: the handler is applied to each event
returned by the zero-lag read, aborting on the first failure. -/
def handleAll (O : BusOracle) : List BootEvent → List BootOp × Except String Unit
  | [] => ([], .ok ())
  | e :: es =>
    match O.handler e with
    | .error err => ([.handle e], .error err)
    | .ok _ =>
      let rest := handleAll O es
      (.handle e :: rest.1, rest.2)

/-- The consumer-start loop of `boot`: one `StartConsumer` per
partition, with the token captured for that partition, aborting on the
first failure. -/
def startConsumers (O : BusOracle) : List (Nat × String) → List BootOp × Except String Unit
  | [] => ([], .ok ())
  | (p, t) :: rest =>
    match O.startConsumer p t with
    | .error e => ([.startConsumer p t], .error e)
    | .ok _ =>
      let r := startConsumers O rest
      (.startConsumer p t :: r.1, r.2)

/-- The partitions `[partitionLo, partitionHi]` in order, as iterated by
`boot` (`partitionSize = partitionHi - partitionLo + 1`). -/
def partitionsOf (partitionLo partitionHi : Nat) : List Nat :=
  List.range' partitionLo (partitionHi - partitionLo + 1)

/-- Translation of `BootableManager.boot` as an operation trace:
read the projection resume ID, delay it by the trailing lag, replay the
store from the delayed ID, capture one bus resume token per partition,
re-read the store after the last replayed ID with zero trailing lag and
batch size zero, handle those events, and only then start one consumer
per partition with the captured tokens.  Every step aborts the sequence
on failure, returning the trace up to that point. -/
def boot (O : BusOracle) (partitionLo partitionHi : Nat) :
    List BootOp × Except String Unit :=
  match O.resumeEventID with
  | .error e =>
    ([.getResumeEventID],
      .error ("Could not get last event ID from the projection: " ++ e))
  | .ok prjEventID =>
    match O.delayed prjEventID with
    | .error e => ([.getResumeEventID], .error ("Error delaying the eventID: " ++ e))
    | .ok prjDelayed =>
      match O.replayAll prjDelayed with
      | .error e =>
        ([.getResumeEventID, .replay prjDelayed],
          .error ("Could not replay all events (first part): " ++ e))
      | .ok lastEventID =>
        let parts := partitionsOf partitionLo partitionHi
        let fetched := fetchTokens O parts
        match fetched.2 with
        | .error e =>
          ([.getResumeEventID, .replay prjDelayed] ++ fetched.1,
            .error ("Could not retrieve resume token: " ++ e))
        | .ok tokens =>
          match O.tailEvents lastEventID with
          | .error e =>
            ([.getResumeEventID, .replay prjDelayed] ++ fetched.1 ++
                [.getEvents lastEventID 0 0],
              .error ("Could not replay all events (second part): " ++ e))
          | .ok events =>
            let handled := handleAll O events
            match handled.2 with
            | .error e =>
              ([.getResumeEventID, .replay prjDelayed] ++ fetched.1 ++
                  [.getEvents lastEventID 0 0] ++ handled.1, .error e)
            | .ok _ =>
              let started := startConsumers O (parts.zip tokens)
              ([.getResumeEventID, .replay prjDelayed] ++ fetched.1 ++
                  [.getEvents lastEventID 0 0] ++ handled.1 ++ started.1,
                started.2)

end Boot

namespace Mgr

/-- The state of a `BootableManager` relevant to `Wait`, `Freeze` and
`Unfreeze`: whether the `wait` channel is closed (so `Wait` proceeds),
the `closed` flag guarding a double close, and `hasLock`. -/
structure MState where
  waitClosed : Bool
  closed : Bool
  hasLock : Bool
deriving DecidableEq

/-- The state built by `NewBootableManager`: the `wait` channel is
created and immediately closed, so `Wait` does not block. -/
def mkManager : MState := { waitClosed := true, closed := false, hasLock := false }

/-- Translation of `BootableManager.Freeze`
(`src/unnamed/part_001:205-227`): returns whether this instance held the
lock, replaces `wait` with a fresh open channel, resets `closed`, and
clears `hasLock`. -/
def freeze (s : MState) : Bool × MState :=
  (s.hasLock, { waitClosed := false, closed := false, hasLock := false })

/-- Translation of `BootableManager.Unfreeze`: closes the `wait` channel
unless already closed, releasing every blocked `Wait` caller. -/
def unfreeze (s : MState) : MState :=
  if s.closed then s else { s with waitClosed := true, closed := true }

/-- Whether a `Wait()` call blocks in state `s`: it receives on the
`wait` channel, which only completes once that channel is closed. -/
def waitBlocks (s : MState) : Bool := !s.waitClosed

/-- The manager operations that can run between a `Freeze` and the
matching `Unfreeze`. -/
inductive MOp
  | freezeOp
  | unfreezeOp
  | waitOp
  | bootOkOp
  | cancelOp
deriving DecidableEq

/-- Effect of one operation on the manager state: `Wait` and `Cancel` do
not touch the three flags, a successful `OnBoot` sets `hasLock`. -/
def step (s : MState) : MOp → MState
  | .freezeOp => (freeze s).2
  | .unfreezeOp => unfreeze s
  | .waitOp => s
  | .bootOkOp => { s with hasLock := true }
  | .cancelOp => s

/-- Folding a sequence of operations over the state. -/
def steps (s : MState) (ops : List MOp) : MState := ops.foldl step s

end Mgr

namespace Fixtures

/-- A concrete ID generator standing in for `common.NewEventID`. -/
def idGenA : Int → String → Nat → String :=
  fun t a v => a ++ "-" ++ toString t ++ "-" ++ toString v

/-- A concrete hash standing in for `common.Hash`. -/
def hashA : String → Nat := fun s => s.length

/-- A stored event holding idempotency key "K" for aggregate type "T". -/
def evK : PgStore.DbEvent :=
  { id := "A-0-1", aggregateID := "A", aggregateVersion := 1, aggregateType := "T"
    kind := "k", body := "b", idempotencyKey := "K", labels := "{}"
    createdAt := 0, aggregateIDHash := 1 }

/-- A record for a different aggregate that reuses idempotency key "K"
on aggregate type "T". -/
def recK : PgStore.EventRecord :=
  { aggregateID := "B", version := 0, aggregateType := "T", idempotencyKey := "K"
    labels := "{}", createdAt := 0, details := [{ kind := "k2", body := "b2" }] }

/-- A two-event record on an empty store. -/
def recW : PgStore.EventRecord :=
  { aggregateID := "A", version := 0, aggregateType := "T", idempotencyKey := ""
    labels := "{}", createdAt := 0
    details := [{ kind := "k1", body := "b1" }, { kind := "k2", body := "b2" }] }

/-- Two rows for exercising `getEvents`. -/
def row61 : PgStore.DbEvent :=
  { id := "b", aggregateID := "A", aggregateVersion := 2, aggregateType := "T"
    kind := "k", body := "b", idempotencyKey := "", labels := "{}"
    createdAt := 5, aggregateIDHash := 0 }

/-- A second row with a smaller ID and an older timestamp. -/
def row62 : PgStore.DbEvent :=
  { id := "a", aggregateID := "A", aggregateVersion := 1, aggregateType := "T"
    kind := "k", body := "b", idempotencyKey := "", labels := "{}"
    createdAt := 1, aggregateIDHash := 0 }

/-- A filter with no aggregate types and partitioning disabled. -/
def filter6 : PgStore.Filter :=
  { aggregateTypes := [], partitions := 0, partitionsLow := 0, partitionsHi := 0 }

/-- A row whose hash falls inside partition range [1, 2] of 3. -/
def c7row : PgStore.DbEvent :=
  { id := "e1", aggregateID := "A", aggregateVersion := 1, aggregateType := "T"
    kind := "k", body := "b", idempotencyKey := "", labels := "{}"
    createdAt := 0, aggregateIDHash := 4 }

/-- A partition-range filter: 3 partitions, range [1, 2]. -/
def c7filter : PgStore.Filter :=
  { aggregateTypes := [], partitions := 3, partitionsLow := 1, partitionsHi := 2 }

/-- A benign store environment for `EventStore.Save`. -/
def envA : Core.StoreEnv :=
  { nowWall := 5200000, snapNow := 6000000
    encodeEvent := fun e => .ok e.payload
    encodeAggregate := fun a => .ok a.id
    saveEventResp := fun r => .ok ("id-last", r.version + r.details.length)
    saveSnapshotResp := fun _ => .ok ()
    snapshotThreshold := 100 }

/-- A store environment whose snapshot write fails. -/
def envSnapFail : Core.StoreEnv :=
  { nowWall := 5200000, snapNow := 6000000
    encodeEvent := fun e => .ok e.payload
    encodeAggregate := fun a => .ok a.id
    saveEventResp := fun r => .ok ("id-last", r.version + r.details.length)
    saveSnapshotResp := fun _ => .error "disk full"
    snapshotThreshold := 3 }

/-- An aggregate with no pending events. -/
def aggE : Core.Aggregate :=
  { id := "agg-1", typ := "Account", version := 7, updatedAt := 4000000
    eventsCounter := 7, events := [] }

/-- An aggregate past the snapshot threshold with one pending event. -/
def aggSnap : Core.Aggregate :=
  { id := "agg-1", typ := "Account", version := 3, updatedAt := 4000000
    eventsCounter := 4, events := [{ kind := "Deposited", payload := "10" }] }

/-- Empty save options. -/
def optsA : Core.SaveOpts := { idempotencyKey := "", labels := "{}" }

/-- A member list where this process appears with an empty claim. -/
def membersCex : List Balance.MemberWorkers :=
  [{ name := "s", workers := [] }, { name := "o", workers := ["w3"] }]

/-- Three local workers, two of them running. -/
def workersCex : List Balance.WorkerState :=
  [{ name := "w1", running := true }, { name := "w2", running := true },
    { name := "w3", running := false }]

/-- The rows a successful save of `recW` on an empty store appends. -/
def rowsW : List PgStore.DbEvent :=
  PgStore.recRowsFrom idGenA hashA recW 0 recW.details

/-- A bus oracle whose every operation succeeds. -/
def bootOracle1 : Boot.BusOracle :=
  { resumeEventID := .ok "r0"
    delayed := fun s => .ok (s ++ "-lag")
    replayAll := fun _ => .ok "last1"
    resumeToken := fun p => .ok ("tok" ++ toString p)
    tailEvents := fun _ => .ok [{ id := "e9" }]
    handler := fun _ => .ok ()
    startConsumer := fun _ _ => .ok () }

end Fixtures

/-! ### Theorems -/

/-- C9: for every aggregate whose pending event list is empty,
`EventStore.Save` returns nil immediately, issues no `SaveEvent` or
`SaveSnapshot` call, and leaves the aggregate (its version included)
unchanged. -/
theorem save_no_pending_events_noop (env : Core.StoreEnv) (agg : Core.Aggregate)
    (opts : Core.SaveOpts) (h : agg.events = []) :
    Core.save env agg opts = (.ok (), agg, []) := by
  simp [Core.save, h]

/-- Witness for `save_no_pending_events_noop` at a concrete aggregate. -/
theorem save_no_pending_events_noop_witness :
    Core.save Fixtures.envA Fixtures.aggE Fixtures.optsA = (.ok (), Fixtures.aggE, []) :=
  save_no_pending_events_noop Fixtures.envA Fixtures.aggE Fixtures.optsA rfl

/-- C10: the `CreatedAt` written into the `EventRecord` by
`EventStore.Save` is the wall clock truncated to millisecond precision,
bumped to the aggregate's update time plus one millisecond whenever the
truncated clock is not strictly ahead of it; it is always strictly later
than the aggregate's update time, and millisecond-aligned whenever the
update time is. -/
theorem saveTimestamp_spec (nowWall updatedAt : Nat) :
    updatedAt < Core.saveTimestamp nowWall updatedAt ∧
    (nowWall / Core.msNs * Core.msNs ≤ updatedAt →
      Core.saveTimestamp nowWall updatedAt = updatedAt + Core.msNs) ∧
    (updatedAt < nowWall / Core.msNs * Core.msNs →
      Core.saveTimestamp nowWall updatedAt = nowWall / Core.msNs * Core.msNs) ∧
    (updatedAt % Core.msNs = 0 → Core.saveTimestamp nowWall updatedAt % Core.msNs = 0) ∧
    (∀ (env : Core.StoreEnv) (agg : Core.Aggregate) (opts : Core.SaveOpts)
        (ds : List Core.CoreDetail),
      (Core.mkRecord env agg opts ds).createdAt
        = Core.saveTimestamp env.nowWall agg.updatedAt) := by
  refine ⟨?_, ?_, ?_, ?_, fun _ _ _ _ => rfl⟩ <;>
    (simp only [Core.saveTimestamp, Core.msNs]; intros; split <;> omega)

/-- Witness for `saveTimestamp_spec` at concrete times. -/
theorem saveTimestamp_spec_witness :
    4000000 < Core.saveTimestamp 5200000 4000000 ∧
    (5200000 / Core.msNs * Core.msNs ≤ 4000000 →
      Core.saveTimestamp 5200000 4000000 = 4000000 + Core.msNs) ∧
    (4000000 < 5200000 / Core.msNs * Core.msNs →
      Core.saveTimestamp 5200000 4000000 = 5200000 / Core.msNs * Core.msNs) ∧
    (4000000 % Core.msNs = 0 → Core.saveTimestamp 5200000 4000000 % Core.msNs = 0) ∧
    (∀ (env : Core.StoreEnv) (agg : Core.Aggregate) (opts : Core.SaveOpts)
        (ds : List Core.CoreDetail),
      (Core.mkRecord env agg opts ds).createdAt
        = Core.saveTimestamp env.nowWall agg.updatedAt) :=
  saveTimestamp_spec 5200000 4000000

/-- C3 counterexample: a save in which `SaveEvent` succeeds and the
subsequent `SaveSnapshot` fails does NOT return nil — it returns the
snapshot error. -/
theorem save_snapshot_failure_cex :
    (Core.save Fixtures.envSnapFail Fixtures.aggSnap Fixtures.optsA).1
        = .error "disk full" ∧
    (Core.save Fixtures.envSnapFail Fixtures.aggSnap Fixtures.optsA).1 ≠ .ok () := by
  refine ⟨rfl, fun h => ?_⟩
  rw [show (Core.save Fixtures.envSnapFail Fixtures.aggSnap Fixtures.optsA).1
      = .error "disk full" from rfl] at h
  exact Except.noConfusion h

/-- C3 amended: when `SaveEvent` succeeds, the snapshot threshold is
reached and `SaveSnapshot` fails, `EventStore.Save` returns the
snapshot error to the caller (the failure is propagated, not
swallowed). -/
theorem save_propagates_snapshot_error (env : Core.StoreEnv) (agg : Core.Aggregate)
    (opts : Core.SaveOpts) (details : List Core.CoreDetail) (id : String) (ver : Nat)
    (body err : String)
    (hne : ¬ agg.events.length = 0)
    (hd : Core.encodeDetails env agg.events = .ok details)
    (hs : env.saveEventResp (Core.mkRecord env agg opts details) = .ok (id, ver))
    (hc : env.snapshotThreshold ≤ (Core.setVersion agg ver).eventsCounter)
    (hb : env.encodeAggregate (Core.setVersion agg ver) = .ok body)
    (hsn : env.saveSnapshotResp (Core.mkSnap env (Core.setVersion agg ver) id body)
        = .error err) :
    (Core.save env agg opts).1 = .error err := by
  simp only [Core.save, if_neg hne, hd, hs, if_pos hc, hb, hsn]

/-- Witness for `save_propagates_snapshot_error` at a concrete
environment. -/
theorem save_propagates_snapshot_error_witness :
    (Core.save Fixtures.envSnapFail Fixtures.aggSnap Fixtures.optsA).1
      = .error "disk full" :=
  save_propagates_snapshot_error Fixtures.envSnapFail Fixtures.aggSnap Fixtures.optsA
    [{ kind := "Deposited", body := "10" }] "id-last" 4 "agg-1" "disk full"
    (by decide) rfl rfl (by decide) rfl rfl

/-- While the manager stays frozen (no `Unfreeze` runs), the `wait`
channel remains open and the `closed` flag remains unset, whatever other
operations run. -/
theorem frozen_steps_invariant (ops : List Mgr.MOp) (h : Mgr.MOp.unfreezeOp ∉ ops) :
    ∀ s : Mgr.MState, s.waitClosed = false → s.closed = false →
      (Mgr.steps s ops).waitClosed = false ∧ (Mgr.steps s ops).closed = false := by
  induction ops with
  | nil => exact fun s h1 h2 => ⟨h1, h2⟩
  | cons op rest ih =>
    intro s h1 h2
    have hop : op ≠ Mgr.MOp.unfreezeOp := fun he => h (he ▸ List.mem_cons_self op rest)
    have hrest : Mgr.MOp.unfreezeOp ∉ rest := fun hm => h (List.mem_cons_of_mem _ hm)
    have hstep : Mgr.steps s (op :: rest) = Mgr.steps (Mgr.step s op) rest := rfl
    rw [hstep]
    refine ih hrest (Mgr.step s op) ?_ ?_ <;>
      cases op <;> first | rfl | exact absurd rfl hop | exact h1 | exact h2

/-- C8: `Freeze` returns exactly the lock flag held at the time of the
call and clears it; afterwards every `Wait` call blocks as long as no
`Unfreeze` runs, whatever other operations are interleaved, and
`Unfreeze` unblocks the waiters. -/
theorem freeze_spec (s : Mgr.MState) (ops : List Mgr.MOp)
    (h : Mgr.MOp.unfreezeOp ∉ ops) :
    (Mgr.freeze s).1 = s.hasLock ∧
    (Mgr.freeze s).2.hasLock = false ∧
    Mgr.waitBlocks (Mgr.steps (Mgr.freeze s).2 ops) = true ∧
    Mgr.waitBlocks (Mgr.unfreeze (Mgr.steps (Mgr.freeze s).2 ops)) = false := by
  obtain ⟨hw, hc⟩ := frozen_steps_invariant ops h (Mgr.freeze s).2 rfl rfl
  refine ⟨rfl, rfl, ?_, ?_⟩
  · simp [Mgr.waitBlocks, hw]
  · simp [Mgr.waitBlocks, Mgr.unfreeze, hc]

/-- Witness for `freeze_spec`: a locked manager frozen and then stepped
through a `Wait` and a successful boot. -/
theorem freeze_spec_witness :
    (Mgr.freeze { waitClosed := true, closed := true, hasLock := true }).1 = true ∧
    (Mgr.freeze
        { waitClosed := true, closed := true, hasLock := true }).2.hasLock = false ∧
    Mgr.waitBlocks
        (Mgr.steps (Mgr.freeze { waitClosed := true, closed := true, hasLock := true }).2
          [Mgr.MOp.waitOp, Mgr.MOp.bootOkOp]) = true ∧
    Mgr.waitBlocks (Mgr.unfreeze
        (Mgr.steps (Mgr.freeze { waitClosed := true, closed := true, hasLock := true }).2
          [Mgr.MOp.waitOp, Mgr.MOp.bootOkOp])) = false :=
  freeze_spec { waitClosed := true, closed := true, hasLock := true }
    [Mgr.MOp.waitOp, Mgr.MOp.bootOkOp] (by decide)

/-- A successful `insertLoop` run appends exactly the generated rows,
returns the base version plus the number of details, and for a non-empty
detail list returns the ID generated for the last version. -/
theorem insertLoop_ok (idGen : Int → String → Nat → String) (hash : String → Nat)
    (record : PgStore.EventRecord) :
    ∀ (ds : List PgStore.EventRecordDetail) (tbl : List PgStore.DbEvent)
      (id : String) (version : Nat) tbl' id' v',
      PgStore.insertLoop idGen hash record tbl id version ds = .ok (tbl', id', v') →
      tbl' = tbl ++ PgStore.recRowsFrom idGen hash record version ds ∧
      v' = version + ds.length ∧
      (ds = [] → id' = id) ∧
      (ds ≠ [] →
        id' = idGen record.createdAt record.aggregateID (version + ds.length)) := by
  intro ds
  induction ds with
  | nil =>
    intro tbl id version tbl' id' v' h
    simp only [PgStore.insertLoop, Except.ok.injEq, Prod.mk.injEq] at h
    obtain ⟨h1, h2, h3⟩ := h
    subst h1; subst h2; subst h3
    simp [PgStore.recRowsFrom]
  | cons d ds ih =>
    intro tbl id version tbl' id' v' h
    rcases hx : PgStore.execInsert tbl (PgStore.mkRow idGen hash record (version + 1) d)
      with e0 | tbl1
    · simp only [PgStore.insertLoop, hx] at h
      split at h <;> exact Except.noConfusion h
    · simp only [PgStore.insertLoop, hx] at h
      have htbl1 : tbl1 = tbl ++ [PgStore.mkRow idGen hash record (version + 1) d] := by
        simp only [PgStore.execInsert] at hx
        split at hx
        · exact absurd hx (by simp)
        · simp only [Except.ok.injEq] at hx
          exact hx.symm
      obtain ⟨h1, h2, h3, h4⟩ := ih tbl1 _ (version + 1) tbl' id' v' h
      refine ⟨?_, ?_, fun hc => absurd hc (by simp), fun _ => ?_⟩
      · rw [h1, htbl1]
        simp [PgStore.recRowsFrom, List.append_assoc]
      · simp only [List.length_cons]
        omega
      · cases ds with
        | nil =>
          have hid : id' = (PgStore.mkRow idGen hash record (version + 1) d).id :=
            h3 rfl
          rw [hid]
          simp [PgStore.mkRow]
        | cons d2 ds2 =>
          have hid := h4 (by simp)
          rw [hid]
          congr 1
          simp only [List.length_cons]
          omega

/-- The versions of the generated rows are the consecutive range
starting right after the base version. -/
theorem recRowsFrom_versions (idGen : Int → String → Nat → String) (hash : String → Nat)
    (record : PgStore.EventRecord) :
    ∀ (ds : List PgStore.EventRecordDetail) (version : Nat),
      (PgStore.recRowsFrom idGen hash record version ds).map (·.aggregateVersion)
        = List.range' (version + 1) ds.length := by
  intro ds
  induction ds with
  | nil => intro version; rfl
  | cons d ds ih =>
    intro version
    simp only [PgStore.recRowsFrom, List.map_cons, ih (version + 1), List.length_cons]
    rfl

/-- The generated row list of a non-empty detail list is non-empty. -/
theorem recRowsFrom_ne_nil (idGen : Int → String → Nat → String) (hash : String → Nat)
    (record : PgStore.EventRecord) (ds : List PgStore.EventRecordDetail) (version : Nat)
    (h : ds ≠ []) :
    PgStore.recRowsFrom idGen hash record version ds ≠ [] := by
  cases ds with
  | nil => exact absurd rfl h
  | cons d ds => simp [PgStore.recRowsFrom]

/-- The last generated row carries the last assigned version. -/
theorem recRowsFrom_getLast (idGen : Int → String → Nat → String) (hash : String → Nat)
    (record : PgStore.EventRecord) :
    ∀ (ds : List PgStore.EventRecordDetail) (version : Nat), ds ≠ [] →
      ∃ d ∈ ds, (PgStore.recRowsFrom idGen hash record version ds).getLast?
        = some (PgStore.mkRow idGen hash record (version + ds.length) d) := by
  intro ds
  induction ds with
  | nil => exact fun version h => absurd rfl h
  | cons d ds ih =>
    intro version _
    cases ds with
    | nil =>
      refine ⟨d, List.mem_singleton.mpr rfl, ?_⟩
      simp [PgStore.recRowsFrom]
    | cons d2 ds2 =>
      obtain ⟨d', hmem, hlast⟩ := ih (version + 1) (List.cons_ne_nil d2 ds2)
      refine ⟨d', List.mem_cons_of_mem d hmem, ?_⟩
      have harith : version + 1 + (d2 :: ds2).length = version + (d :: d2 :: ds2).length := by
        simp only [List.length_cons]
        omega
      rw [harith] at hlast
      simp only [PgStore.recRowsFrom] at hlast ⊢
      rw [List.getLast?_cons_cons]
      exact hlast

/-- Every error produced inside the insert loop is the
concurrent-modification error: the database only rejects an insert with
a unique violation, and `isPgDup` maps every unique violation to
`ErrConcurrentModification`. -/
theorem insertLoop_error (idGen : Int → String → Nat → String) (hash : String → Nat)
    (record : PgStore.EventRecord) :
    ∀ (ds : List PgStore.EventRecordDetail) (tbl : List PgStore.DbEvent)
      (id : String) (version : Nat) (e : PgStore.SaveError),
      PgStore.insertLoop idGen hash record tbl id version ds = .error e →
      e = PgStore.SaveError.concurrentModification := by
  intro ds
  induction ds with
  | nil => intro tbl id version e h; simp [PgStore.insertLoop] at h
  | cons d ds ih =>
    intro tbl id version e h
    rcases hx : PgStore.execInsert tbl (PgStore.mkRow idGen hash record (version + 1) d)
      with e0 | tbl1
    · simp only [PgStore.insertLoop, hx] at h
      have hdup : PgStore.isPgDup e0 = true := by
        simp only [PgStore.execInsert] at hx
        split at hx
        · simp only [Except.error.injEq] at hx
          rw [← hx]
          rfl
        · exact absurd hx (by simp)
      rw [if_pos hdup] at h
      simp only [Except.error.injEq] at h
      exact h.symm
    · simp only [PgStore.insertLoop, hx] at h
      exact ih tbl1 _ (version + 1) e h

/-- C1: for every event record with a non-empty detail list, a
successful `SaveEvent` appends exactly the generated rows — one per
detail, with consecutive versions `Version+1 … Version+len(Details)` —
and returns the ID and version of the last appended row; on any insert
failure the transaction rolls back and no event is persisted. -/
theorem saveEvent_spec (idGen : Int → String → Nat → String) (hash : String → Nat)
    (tbl : List PgStore.DbEvent) (record : PgStore.EventRecord)
    (hne : record.details ≠ []) :
    (∀ id ver tbl',
      PgStore.saveEvent idGen hash tbl record = (.ok (id, ver), tbl') →
      tbl' = tbl ++
          PgStore.recRowsFrom idGen hash record record.version record.details ∧
      (PgStore.recRowsFrom idGen hash record record.version record.details).map
          (·.aggregateVersion)
        = List.range' (record.version + 1) record.details.length ∧
      ver = record.version + record.details.length ∧
      id = idGen record.createdAt record.aggregateID
          (record.version + record.details.length) ∧
      ∃ lastRow, tbl'.getLast? = some lastRow ∧ lastRow.id = id ∧
        lastRow.aggregateVersion = ver) ∧
    (∀ e tbl',
      PgStore.saveEvent idGen hash tbl record = (.error e, tbl') → tbl' = tbl) := by
  constructor
  · intro id ver tbl' h
    rcases hi : PgStore.insertLoop idGen hash record tbl "" record.version record.details
      with e0 | ⟨tbl0, id0, v0⟩
    · simp only [PgStore.saveEvent, hi] at h
      simp at h
    · simp only [PgStore.saveEvent, hi] at h
      simp only [Prod.mk.injEq, Except.ok.injEq] at h
      obtain ⟨⟨hid, hver⟩, htbl⟩ := h
      obtain ⟨h1, h2, _, h4⟩ :=
        insertLoop_ok idGen hash record record.details tbl "" record.version tbl0 id0 v0 hi
      subst hid; subst hver; subst htbl
      have hrows := recRowsFrom_versions idGen hash record record.details record.version
      refine ⟨h1, hrows, h2, h4 hne, ?_⟩
      obtain ⟨d', _, hl⟩ :=
        recRowsFrom_getLast idGen hash record record.details record.version hne
      refine ⟨PgStore.mkRow idGen hash record (record.version + record.details.length) d',
        ?_, ?_, ?_⟩
      · rw [h1,
          List.getLast?_append_of_ne_nil tbl
            (recRowsFrom_ne_nil idGen hash record record.details record.version hne)]
        exact hl
      · rw [h4 hne]
        rfl
      · rw [h2]
        rfl
  · intro e tbl' h
    rcases hi : PgStore.insertLoop idGen hash record tbl "" record.version record.details
      with e0 | ⟨tbl0, id0, v0⟩
    · simp only [PgStore.saveEvent, hi] at h
      simp only [Prod.mk.injEq] at h
      exact h.2.symm
    · simp only [PgStore.saveEvent, hi] at h
      simp at h

/-- Witness for `saveEvent_spec`: saving a two-event record on an empty
store. -/
theorem saveEvent_spec_witness :
    Fixtures.rowsW = [] ++ PgStore.recRowsFrom Fixtures.idGenA Fixtures.hashA
        Fixtures.recW Fixtures.recW.version Fixtures.recW.details ∧
    (PgStore.recRowsFrom Fixtures.idGenA Fixtures.hashA Fixtures.recW
        Fixtures.recW.version Fixtures.recW.details).map (·.aggregateVersion)
      = List.range' (Fixtures.recW.version + 1) Fixtures.recW.details.length ∧
    2 = Fixtures.recW.version + Fixtures.recW.details.length ∧
    "A-0-2" = Fixtures.idGenA Fixtures.recW.createdAt Fixtures.recW.aggregateID
        (Fixtures.recW.version + Fixtures.recW.details.length) ∧
    (∃ lastRow, Fixtures.rowsW.getLast? = some lastRow ∧ lastRow.id = "A-0-2" ∧
      lastRow.aggregateVersion = 2) :=
  (saveEvent_spec Fixtures.idGenA Fixtures.hashA [] Fixtures.recW (by decide)).1
    "A-0-2" 2 Fixtures.rowsW rfl

/-- C2 counterexample: inserting an event whose only constraint clash is
the duplicate `(aggregateType, idempotencyKey)` pair makes `SaveEvent`
return `ErrConcurrentModification`, not a distinct
duplicate-idempotency-key error. -/
theorem saveEvent_idemKey_cex :
    PgStore.whichViolation [Fixtures.evK]
        (PgStore.mkRow Fixtures.idGenA Fixtures.hashA Fixtures.recK 1
          { kind := "k2", body := "b2" })
      = some PgStore.PgConstraint.aggTypeIdemKey ∧
    PgStore.saveEvent Fixtures.idGenA Fixtures.hashA [Fixtures.evK] Fixtures.recK
      = (.error PgStore.SaveError.concurrentModification, [Fixtures.evK]) :=
  ⟨rfl, rfl⟩

/-- C2 amended: every unique-constraint violation — whether on
`(aggregateID, aggregateVersion)` or on `(aggregateType,
idempotencyKey)` — makes `SaveEvent` return `ErrConcurrentModification`
with the store unchanged; no distinct duplicate-idempotency-key error
exists on this path. -/
theorem saveEvent_unique_violation_spec (idGen : Int → String → Nat → String)
    (hash : String → Nat) (tbl : List PgStore.DbEvent)
    (record : PgStore.EventRecord) :
    (∀ e tbl', PgStore.saveEvent idGen hash tbl record = (.error e, tbl') →
      e = PgStore.SaveError.concurrentModification ∧ tbl' = tbl) ∧
    (∀ d rest, record.details = d :: rest →
      (PgStore.whichViolation tbl
          (PgStore.mkRow idGen hash record (record.version + 1) d)).isSome = true →
      (PgStore.saveEvent idGen hash tbl record).1
        = .error PgStore.SaveError.concurrentModification) := by
  constructor
  · intro e tbl' h
    rcases hi : PgStore.insertLoop idGen hash record tbl "" record.version record.details
      with e0 | ⟨tbl0, id0, v0⟩
    · simp only [PgStore.saveEvent, hi] at h
      simp only [Prod.mk.injEq, Except.error.injEq] at h
      refine ⟨?_, h.2.symm⟩
      rw [← h.1]
      exact insertLoop_error idGen hash record record.details tbl "" record.version e0 hi
    · simp only [PgStore.saveEvent, hi] at h
      simp at h
  · intro d rest hd hv
    rcases ho : PgStore.whichViolation tbl
        (PgStore.mkRow idGen hash record (record.version + 1) d) with _ | c
    · rw [ho] at hv
      simp at hv
    · simp only [PgStore.saveEvent, hd, PgStore.insertLoop, PgStore.execInsert, ho]
      rfl

/-- Witness for `saveEvent_unique_violation_spec` at the concrete
duplicate-key save. -/
theorem saveEvent_unique_violation_spec_witness :
    (PgStore.SaveError.concurrentModification
        = PgStore.SaveError.concurrentModification ∧
      [Fixtures.evK] = [Fixtures.evK]) ∧
    (PgStore.saveEvent Fixtures.idGenA Fixtures.hashA [Fixtures.evK] Fixtures.recK).1
      = .error PgStore.SaveError.concurrentModification :=
  ⟨(saveEvent_unique_violation_spec Fixtures.idGenA Fixtures.hashA [Fixtures.evK]
        Fixtures.recK).1 PgStore.SaveError.concurrentModification [Fixtures.evK] rfl,
    (saveEvent_unique_violation_spec Fixtures.idGenA Fixtures.hashA [Fixtures.evK]
        Fixtures.recK).2 { kind := "k2", body := "b2" } [] rfl rfl⟩

/-- The lexicographic character comparison is asymmetric. -/
theorem strLtB_asymm : ∀ a b, PgStore.strLtB a b = true → PgStore.strLtB b a = false
  | [], [] => by simp [PgStore.strLtB]
  | [], _ :: _ => by simp [PgStore.strLtB]
  | _ :: _, [] => by simp [PgStore.strLtB]
  | a :: as, b :: bs => by
    intro h
    by_cases h1 : a.toNat < b.toNat
    · simp only [PgStore.strLtB, if_neg (by omega : ¬ b.toNat < a.toNat), if_pos h1]
    · by_cases h2 : b.toNat < a.toNat
      · simp only [PgStore.strLtB, if_pos h1, if_pos h2] at h
        exact absurd h (by simp [if_neg h1, if_pos h2])
      · simp only [PgStore.strLtB, if_neg h1, if_neg h2] at h
        simp only [PgStore.strLtB, if_neg h1, if_neg h2]
        exact strLtB_asymm as bs h

/-- Negative transitivity of the lexicographic comparison. -/
theorem strLtB_neg_trans :
    ∀ a b c, PgStore.strLtB b a = false → PgStore.strLtB c b = false →
      PgStore.strLtB c a = false
  | [], b, c => by
    intro _ _
    cases c <;> simp [PgStore.strLtB]
  | _ :: _, [], _ => by
    intro h1 _
    simp [PgStore.strLtB] at h1
  | _ :: _, _ :: _, [] => by
    intro _ h2
    simp [PgStore.strLtB] at h2
  | x :: xs, y :: ys, z :: zs => by
    intro h1 h2
    by_cases hyx : y.toNat < x.toNat
    · rw [PgStore.strLtB, if_pos hyx] at h1
      exact absurd h1 (by simp)
    · rw [PgStore.strLtB, if_neg hyx] at h1
      by_cases hzy : z.toNat < y.toNat
      · rw [PgStore.strLtB, if_pos hzy] at h2
        exact absurd h2 (by simp)
      · rw [PgStore.strLtB, if_neg hzy] at h2
        by_cases hzx : z.toNat < x.toNat
        · omega
        · rw [PgStore.strLtB, if_neg hzx]
          by_cases hxz : x.toNat < z.toNat
          · rw [if_pos hxz]
          · rw [if_neg hxz]
            have hxy : ¬ x.toNat < y.toNat := by omega
            rw [if_neg hxy] at h1
            have hyz : ¬ y.toNat < z.toNat := by omega
            rw [if_neg hyz] at h2
            exact strLtB_neg_trans xs ys zs h1 h2

/-- The VARCHAR ordering is total. -/
theorem strLe_total (a b : String) : PgStore.strLe a b = true ∨ PgStore.strLe b a = true := by
  cases hlt : PgStore.strLt b a
  · left
    simp [PgStore.strLe, hlt]
  · right
    have := strLtB_asymm b.data a.data hlt
    simp [PgStore.strLe, PgStore.strLt, this]

/-- The VARCHAR ordering is transitive. -/
theorem strLe_trans {a b c : String} (h1 : PgStore.strLe a b = true)
    (h2 : PgStore.strLe b c = true) : PgStore.strLe a c = true := by
  simp only [PgStore.strLe, PgStore.strLt, Bool.not_eq_true'] at h1 h2 ⊢
  exact strLtB_neg_trans a.data b.data c.data h1 h2

instance : IsTotal PgStore.DbEvent PgStore.rowLe :=
  ⟨fun a b => strLe_total a.id b.id⟩

instance : IsTrans PgStore.DbEvent PgStore.rowLe :=
  ⟨fun _ _ _ h1 h2 => strLe_trans h1 h2⟩

/-- A row passing a conjunction of conditions passes its head and its
tail. -/
theorem evalConds_cons_true (args : List PgStore.SqlVal) (r : PgStore.DbEvent)
    (c : PgStore.SqlCond) (cs : List PgStore.SqlCond)
    (h : PgStore.evalConds args r (c :: cs) = some true) :
    PgStore.evalCond args r c = some true ∧
      PgStore.evalConds args r cs = some true := by
  rcases hc : PgStore.evalCond args r c with _ | b
  · simp [PgStore.evalConds, hc] at h
  · rcases hcs : PgStore.evalConds args r cs with _ | b2
    · simp [PgStore.evalConds, hc, hcs] at h
    · simp only [PgStore.evalConds, hc, hcs, Option.bind_eq_bind, Option.some_bind,
        Option.pure_def, Option.some.injEq, Bool.and_eq_true] at h
      exact ⟨by rw [h.1], by rw [h.2]⟩

/-- Every row kept by the WHERE clause evaluates every condition to
true. -/
theorem queryRows_mem (args : List PgStore.SqlVal) (conds : List PgStore.SqlCond) :
    ∀ (tbl rows : List PgStore.DbEvent),
      PgStore.queryRows args conds tbl = some rows →
      ∀ e ∈ rows, PgStore.evalConds args e conds = some true := by
  intro tbl
  induction tbl with
  | nil =>
    intro rows h e he
    simp only [PgStore.queryRows, Option.some.injEq] at h
    subst h
    simp at he
  | cons r rs ih =>
    intro rows h e he
    rcases hb : PgStore.evalConds args r conds with _ | b
    · simp [PgStore.queryRows, hb] at h
    · rcases hrest : PgStore.queryRows args conds rs with _ | rest
      · simp [PgStore.queryRows, hb, hrest] at h
      · simp only [PgStore.queryRows, hb, hrest, Option.bind_eq_bind, Option.some_bind,
          Option.pure_def, Option.some.injEq] at h
        subst h
        cases b with
        | true =>
          simp only [if_pos rfl] at he
          rcases List.mem_cons.mp he with hre | hm
          · subst hre
            exact hb
          · exact ih rest hrest e hm
        | false =>
          exact ih rest hrest e (by simpa using he)

/-- The arguments built by `buildFilter` extend the ones it was handed:
it only appends. -/
theorem buildFilter_args_ext (f : PgStore.Filter) (args : List PgStore.SqlVal) :
    ∃ ext, (PgStore.buildFilter f args).2 = args ++ ext := by
  by_cases h1 : f.aggregateTypes.length > 0 <;>
    by_cases h2 : f.partitions > 0 <;>
      by_cases h3 : (f.partitionsLow == f.partitionsHi) = true
  · exact ⟨f.aggregateTypes.map PgStore.SqlVal.s ++
      [PgStore.SqlVal.n f.partitions, PgStore.SqlVal.n (f.partitionsLow - 1)],
      by simp [PgStore.buildFilter, h1, h2, h3, List.append_assoc]⟩
  · exact ⟨f.aggregateTypes.map PgStore.SqlVal.s ++
      [PgStore.SqlVal.n f.partitions, PgStore.SqlVal.n (f.partitionsLow - 1),
        PgStore.SqlVal.n (f.partitionsHi - 1)],
      by simp [PgStore.buildFilter, h1, h2, h3, List.append_assoc]⟩
  · exact ⟨f.aggregateTypes.map PgStore.SqlVal.s,
      by simp [PgStore.buildFilter, h1, h2, h3]⟩
  · exact ⟨f.aggregateTypes.map PgStore.SqlVal.s,
      by simp [PgStore.buildFilter, h1, h2, h3]⟩
  · exact ⟨[PgStore.SqlVal.n f.partitions, PgStore.SqlVal.n (f.partitionsLow - 1)],
      by simp [PgStore.buildFilter, h1, h2, h3]⟩
  · exact ⟨[PgStore.SqlVal.n f.partitions, PgStore.SqlVal.n (f.partitionsLow - 1),
        PgStore.SqlVal.n (f.partitionsHi - 1)],
      by simp [PgStore.buildFilter, h1, h2, h3]⟩
  · exact ⟨[], by simp [PgStore.buildFilter, h1, h2, h3]⟩
  · exact ⟨[], by simp [PgStore.buildFilter, h1, h2, h3]⟩

/-- C6: every event returned by `GetEvents` has an ID strictly greater
than the requested one and, when the trailing lag is non-zero, a
creation time no later than now minus the lag; the returned list is
ordered by ID ascending and holds at most `batchSize` events when
`batchSize > 0`. -/
theorem getEvents_spec (tbl : List PgStore.DbEvent) (afterEventID : String)
    (batchSize : Nat) (now lag : Int) (f : PgStore.Filter)
    (evs : List PgStore.DbEvent)
    (h : PgStore.getEvents tbl afterEventID batchSize now lag f = some evs) :
    (∀ e ∈ evs, PgStore.strLt afterEventID e.id = true ∧
      (lag ≠ 0 → e.createdAt ≤ now - lag)) ∧
    evs.Sorted PgStore.rowLe ∧
    (0 < batchSize → evs.length ≤ batchSize) := by
  by_cases hlag : lag = 0
  · have hne : ¬ (lag ≠ 0) := by simp [hlag]
    simp only [PgStore.getEvents, if_neg hne] at h
    rcases hq : PgStore.queryRows
        (PgStore.buildFilter f [PgStore.SqlVal.s afterEventID]).2
        ([PgStore.SqlCond.idGt 1] ++
          (PgStore.buildFilter f [PgStore.SqlVal.s afterEventID]).1) tbl
      with _ | rows
    · simp only [hq] at h
      exact Option.noConfusion h
    · simp only [hq, Option.some.injEq] at h
      subst h
      obtain ⟨ext, hext⟩ := buildFilter_args_ext f [PgStore.SqlVal.s afterEventID]
      have hmem : ∀ e ∈ List.insertionSort PgStore.rowLe rows,
          PgStore.strLt afterEventID e.id = true ∧
            (lag ≠ 0 → e.createdAt ≤ now - lag) := by
        intro e he
        have he' : e ∈ rows := (List.mem_insertionSort PgStore.rowLe).mp he
        have hec := queryRows_mem _ _ tbl rows hq e he'
        obtain ⟨hhead, _⟩ := evalConds_cons_true _ e _ _ hec
        rw [hext] at hhead
        simp only [PgStore.evalCond, PgStore.argStr, PgStore.getArg,
          List.singleton_append, List.get?, Option.map_some', Option.some.injEq,
          decide_eq_true_eq] at hhead
        exact ⟨hhead, fun hl => absurd hlag hl⟩
      have hsorted := List.sorted_insertionSort PgStore.rowLe rows
      split
      next hbs =>
        exact ⟨fun e he => hmem e (List.take_subset _ _ he), List.Pairwise.take hsorted,
          fun _ => List.length_take_le _ _⟩
      next hbs =>
        exact ⟨hmem, hsorted, fun hb => absurd hb hbs⟩
  · simp only [PgStore.getEvents, if_pos hlag] at h
    rcases hq : PgStore.queryRows
        (PgStore.buildFilter f
          [PgStore.SqlVal.s afterEventID, PgStore.SqlVal.i (now - lag)]).2
        ([PgStore.SqlCond.idGt 1, PgStore.SqlCond.createdLe 2] ++
          (PgStore.buildFilter f
            [PgStore.SqlVal.s afterEventID, PgStore.SqlVal.i (now - lag)]).1) tbl
      with _ | rows
    · simp only [hq] at h
      exact Option.noConfusion h
    · simp only [hq, Option.some.injEq] at h
      subst h
      obtain ⟨ext, hext⟩ := buildFilter_args_ext f
        [PgStore.SqlVal.s afterEventID, PgStore.SqlVal.i (now - lag)]
      have hmem : ∀ e ∈ List.insertionSort PgStore.rowLe rows,
          PgStore.strLt afterEventID e.id = true ∧
            (lag ≠ 0 → e.createdAt ≤ now - lag) := by
        intro e he
        have he' : e ∈ rows := (List.mem_insertionSort PgStore.rowLe).mp he
        have hec := queryRows_mem _ _ tbl rows hq e he'
        obtain ⟨hhead, htail⟩ := evalConds_cons_true _ e _ _ hec
        obtain ⟨hsecond, _⟩ := evalConds_cons_true _ e _ _ htail
        rw [hext] at hhead hsecond
        simp only [PgStore.evalCond, PgStore.argStr, PgStore.getArg,
          List.cons_append, List.get?, Option.map_some', Option.some.injEq,
          decide_eq_true_eq] at hhead
        simp only [PgStore.evalCond, PgStore.argInt, PgStore.getArg,
          List.cons_append, List.get?, Option.map_some', Option.some.injEq,
          decide_eq_true_eq] at hsecond
        exact ⟨hhead, fun _ => hsecond⟩
      have hsorted := List.sorted_insertionSort PgStore.rowLe rows
      split
      next hbs =>
        exact ⟨fun e he => hmem e (List.take_subset _ _ he), List.Pairwise.take hsorted,
          fun _ => List.length_take_le _ _⟩
      next hbs =>
        exact ⟨hmem, hsorted, fun hb => absurd hb hbs⟩

/-- Witness for `getEvents_spec`: a two-row table read with a non-zero
trailing lag and batch size one. -/
theorem getEvents_spec_witness :
    (∀ e ∈ [Fixtures.row62], PgStore.strLt "" e.id = true ∧
      ((2 : Int) ≠ 0 → e.createdAt ≤ 10 - 2)) ∧
    List.Sorted PgStore.rowLe [Fixtures.row62] ∧
    (0 < 1 → [Fixtures.row62].length ≤ 1) :=
  getEvents_spec [Fixtures.row61, Fixtures.row62] "" 1 10 2 Fixtures.filter6
    [Fixtures.row62] (by decide)

/-- C7: the SQL built for a partition range `[lo, hi]` with `lo ≠ hi`
references placeholder `$5` while only four arguments are bound, so the
statement fails and no rows are selected — although the row lies inside
the partition range, as the (correct) MongoDB change-stream predicate
for the same filter confirms. -/
theorem buildFilter_range_bug :
    (PgStore.buildFilter Fixtures.c7filter [PgStore.SqlVal.s ""]).1
      = [PgStore.SqlCond.modBetween 2 3 5] ∧
    (PgStore.buildFilter Fixtures.c7filter [PgStore.SqlVal.s ""]).2.length = 4 ∧
    PgStore.getEvents [Fixtures.c7row] "" 0 0 0 Fixtures.c7filter = none ∧
    MongoFeed.partitionMatch 3 1 2 Fixtures.c7row.aggregateIDHash = true :=
  ⟨rfl, rfl, rfl, rfl⟩

/-- A successful token fetch visits exactly the given partitions in
order and returns one token per partition, each the one the bus returned
for that partition. -/
theorem fetchTokens_ok (O : Boot.BusOracle) :
    ∀ (ps : List Nat) (tr : List Boot.BootOp) (toks : List String),
      Boot.fetchTokens O ps = (tr, .ok toks) →
      tr = ps.map Boot.BootOp.getResumeToken ∧
      toks.length = ps.length ∧
      ∀ i (h1 : i < ps.length) (h2 : i < toks.length),
        O.resumeToken (ps.get ⟨i, h1⟩) = .ok (toks.get ⟨i, h2⟩) := by
  intro ps
  induction ps with
  | nil =>
    intro tr toks h
    simp only [Boot.fetchTokens, Prod.mk.injEq, Except.ok.injEq] at h
    obtain ⟨h1, h2⟩ := h
    subst h1; subst h2
    exact ⟨rfl, rfl, fun i h1 h2 => absurd h1 (by simp)⟩
  | cons p ps ih =>
    intro tr toks h
    rcases ht : O.resumeToken p with e | t
    · simp only [Boot.fetchTokens, ht, Prod.mk.injEq] at h
      exact Except.noConfusion h.2
    · rcases hrest : Boot.fetchTokens O ps with ⟨tr1, r1⟩
      rcases r1 with e | ts
      · simp only [Boot.fetchTokens, ht, hrest, Prod.mk.injEq] at h
        exact Except.noConfusion h.2
      · simp only [Boot.fetchTokens, ht, hrest, Prod.mk.injEq, Except.ok.injEq] at h
        obtain ⟨h1, h2⟩ := h
        subst h1; subst h2
        obtain ⟨hih1, hih2, hih3⟩ := ih tr1 ts hrest
        refine ⟨by simp [hih1], by simp [hih2], ?_⟩
        intro i h1 h2
        cases i with
        | zero => exact ht
        | succ j =>
          exact hih3 j (by simp only [List.length_cons] at h1; omega)
            (by simp only [List.length_cons] at h2; omega)

/-- A successful tail replay handles exactly the returned events, in
order. -/
theorem handleAll_ok (O : Boot.BusOracle) :
    ∀ (es : List Boot.BootEvent), (Boot.handleAll O es).2 = .ok () →
      (Boot.handleAll O es).1 = es.map Boot.BootOp.handle := by
  intro es
  induction es with
  | nil => intro _; rfl
  | cons e es ih =>
    intro h
    rcases hh : O.handler e with err | u
    · simp [Boot.handleAll, hh] at h
    · simp only [Boot.handleAll, hh] at h ⊢
      simp [ih h]

/-- A successful consumer start issues exactly one `StartConsumer` per
partition-token pair, in order. -/
theorem startConsumers_ok (O : Boot.BusOracle) :
    ∀ (l : List (Nat × String)), (Boot.startConsumers O l).2 = .ok () →
      (Boot.startConsumers O l).1
        = l.map fun pt => Boot.BootOp.startConsumer pt.1 pt.2 := by
  intro l
  induction l with
  | nil => intro _; rfl
  | cons pt rest ih =>
    intro h
    rcases hs : O.startConsumer pt.1 pt.2 with err | u
    · simp [Boot.startConsumers, hs] at h
    · simp only [Boot.startConsumers, hs] at h ⊢
      simp [ih h]

/-- C4: every successful `boot` performs, in this order: read the
projection resume ID, replay the store from the lag-delayed ID, fetch
one bus resume token per partition in the range, re-read the store
after the last replayed ID with zero batch size and zero trailing lag,
handle those events, and only then start one consumer per partition
with the tokens captured before the tail replay. -/
theorem boot_order (O : Boot.BusOracle) (partitionLo partitionHi : Nat)
    (h : (Boot.boot O partitionLo partitionHi).2 = .ok ()) :
    ∃ prjEventID prjDelayed lastEventID tokens events,
      O.resumeEventID = .ok prjEventID ∧
      O.delayed prjEventID = .ok prjDelayed ∧
      O.replayAll prjDelayed = .ok lastEventID ∧
      O.tailEvents lastEventID = .ok events ∧
      List.length tokens = partitionHi - partitionLo + 1 ∧
      (∀ i (h1 : i < (Boot.partitionsOf partitionLo partitionHi).length)
          (h2 : i < List.length tokens),
        O.resumeToken ((Boot.partitionsOf partitionLo partitionHi).get ⟨i, h1⟩)
          = .ok (tokens.get ⟨i, h2⟩)) ∧
      (Boot.boot O partitionLo partitionHi).1 =
        [Boot.BootOp.getResumeEventID, Boot.BootOp.replay prjDelayed] ++
          (Boot.partitionsOf partitionLo partitionHi).map Boot.BootOp.getResumeToken ++
          [Boot.BootOp.getEvents lastEventID 0 0] ++
          events.map Boot.BootOp.handle ++
          ((Boot.partitionsOf partitionLo partitionHi).zip tokens).map
            (fun pt => Boot.BootOp.startConsumer pt.1 pt.2) := by
  rcases hr : O.resumeEventID with e | prj
  · simp [Boot.boot, hr] at h
  rcases hd : O.delayed prj with e | prjD
  · simp [Boot.boot, hr, hd] at h
  rcases hre : O.replayAll prjD with e | lastID
  · simp [Boot.boot, hr, hd, hre] at h
  rcases hf : Boot.fetchTokens O (Boot.partitionsOf partitionLo partitionHi)
    with ⟨tr1, rtoks⟩
  rcases rtoks with e | toks
  · simp [Boot.boot, hr, hd, hre, hf] at h
  rcases hte : O.tailEvents lastID with e | evs
  · simp [Boot.boot, hr, hd, hre, hf, hte] at h
  rcases hha : Boot.handleAll O evs with ⟨tr2, rh⟩
  rcases rh with e | u
  · simp [Boot.boot, hr, hd, hre, hf, hte, hha] at h
  rcases hsc : Boot.startConsumers O
      ((Boot.partitionsOf partitionLo partitionHi).zip toks) with ⟨tr3, rs⟩
  have hboot : Boot.boot O partitionLo partitionHi
      = ([Boot.BootOp.getResumeEventID, Boot.BootOp.replay prjD] ++ tr1 ++
          [Boot.BootOp.getEvents lastID 0 0] ++ tr2 ++ tr3, rs) := by
    simp [Boot.boot, hr, hd, hre, hf, hte, hha, hsc]
  rw [hboot] at h
  obtain ⟨htr1, hlen, hidx⟩ :=
    fetchTokens_ok O (Boot.partitionsOf partitionLo partitionHi) tr1 toks hf
  have hh2 : (Boot.handleAll O evs).2 = .ok () := by rw [hha]
  have htr2 : tr2 = evs.map Boot.BootOp.handle := by
    have := handleAll_ok O evs hh2
    rw [hha] at this
    exact this
  have hs2 : (Boot.startConsumers O
      ((Boot.partitionsOf partitionLo partitionHi).zip toks)).2 = .ok () := by
    rw [hsc]
    exact h
  have htr3 : tr3 = ((Boot.partitionsOf partitionLo partitionHi).zip toks).map
      fun pt => Boot.BootOp.startConsumer pt.1 pt.2 := by
    have := startConsumers_ok O ((Boot.partitionsOf partitionLo partitionHi).zip toks) hs2
    rw [hsc] at this
    exact this
  refine ⟨prj, prjD, lastID, toks, evs, rfl, hd, hre, hte, ?_, hidx, ?_⟩
  · rw [hlen]
    simp [Boot.partitionsOf]
  · rw [hboot, htr1, htr2, htr3]

/-- Witness for `boot_order`: a boot over partitions 1 and 2 with an
all-successful bus oracle. -/
theorem boot_order_witness :
    ∃ prjEventID prjDelayed lastEventID tokens events,
      Fixtures.bootOracle1.resumeEventID = .ok prjEventID ∧
      Fixtures.bootOracle1.delayed prjEventID = .ok prjDelayed ∧
      Fixtures.bootOracle1.replayAll prjDelayed = .ok lastEventID ∧
      Fixtures.bootOracle1.tailEvents lastEventID = .ok events ∧
      List.length tokens = 2 - 1 + 1 ∧
      (∀ i (h1 : i < (Boot.partitionsOf 1 2).length) (h2 : i < List.length tokens),
        Fixtures.bootOracle1.resumeToken ((Boot.partitionsOf 1 2).get ⟨i, h1⟩)
          = .ok (tokens.get ⟨i, h2⟩)) ∧
      (Boot.boot Fixtures.bootOracle1 1 2).1 =
        [Boot.BootOp.getResumeEventID, Boot.BootOp.replay prjDelayed] ++
          (Boot.partitionsOf 1 2).map Boot.BootOp.getResumeToken ++
          [Boot.BootOp.getEvents lastEventID 0 0] ++
          events.map Boot.BootOp.handle ++
          ((Boot.partitionsOf 1 2).zip tokens).map
            (fun pt => Boot.BootOp.startConsumer pt.1 pt.2) :=
  boot_order Fixtures.bootOracle1 1 2 rfl

/-- C5 counterexample: with members `s` (listed with an empty claim) and
`o` (one worker), and three local workers two of which run, the claim's
formula ("every OTHER member claims at least the floor share") yields
target 2, but the code also counts this process's own list entry and
yields target 1. -/
theorem balance_target_cex :
    Balance.runTarget "s" Fixtures.membersCex Fixtures.workersCex = 1 ∧
    Balance.claimTarget "s" Fixtures.membersCex Fixtures.workersCex = 2 ∧
    Balance.runTarget "s" Fixtures.membersCex Fixtures.workersCex ≠
      Balance.claimTarget "s" Fixtures.membersCex Fixtures.workersCex := by
  decide

/-- C5 amended: the balancer's target is `⌊W / M⌋ + 1` exactly when `W
mod M` is non-zero, every LISTED member (this process's own entry
included) claims at least `⌊W / M⌋` workers, and at least `⌊W / M⌋`
distinct local workers are running; otherwise it is `⌊W / M⌋`. -/
theorem runTarget_spec (selfName : String) (members : List Balance.MemberWorkers)
    (workers : List Balance.WorkerState) :
    Balance.runTarget selfName members workers =
      if (∀ m ∈ members,
            workers.length / Balance.memberCount selfName members ≤ m.workers.length) ∧
          workers.length / Balance.memberCount selfName members
            ≤ (Balance.runningNames workers).length ∧
          workers.length % Balance.memberCount selfName members ≠ 0
      then workers.length / Balance.memberCount selfName members + 1
      else workers.length / Balance.memberCount selfName members := by
  simp only [Balance.runTarget]
  split_ifs with hb hp hp
  · rfl
  · exfalso
    apply hp
    simp only [Bool.and_eq_true, List.all_eq_true, decide_eq_true_eq, bne_iff_ne,
      ne_eq] at hb
    exact ⟨hb.1.1, hb.1.2, hb.2⟩
  · exfalso
    apply hb
    simp only [Bool.and_eq_true, List.all_eq_true, decide_eq_true_eq, bne_iff_ne,
      ne_eq]
    exact ⟨⟨hp.1, hp.2.1⟩, hp.2.2⟩
  · rfl
